import Mathlib

/-!
Verification of the client-facing wormhole facade (src/src/wormhole/wormhole.py).

The development shallowly embeds the two facade classes and the welcome
evaluator of the source file:

* `_WelcomeHandler` becomes `WHState` / `handle_welcome`;
* `_DeferredWormhole` becomes the `DeferredWormhole` structure together with
  one Lean function per method (`when_code`, `got_code`, `close`, `closed`, ...);
  Twisted `Deferred` objects are represented by the natural number under which
  they were allocated (`nextId` is the allocation counter), and the visible
  behaviour of a call is reported as a list of `DEvent` resolution events;
* the key-handling part of `_DelegatedWormhole` becomes `DelegatedWormhole`;
* `create`'s choice of the default welcome handler is `defaultWelcomeHandler`.

Python truthiness is modelled explicitly where the source relies on it
(`if not self._key`, `if self._closed_result`, `if self._received_data`).
-/

/-- A terminal result handed to `closed(result)`: either an instance of an
`Exception` subclass (carrying its message) or a plain (string) value. -/
inductive PyRes where
  | exc (e : String)
  | val (v : String)
deriving DecidableEq, Repr

/-- The sticky `_observer_result` of `_DeferredWormhole`: either a
`twisted.python.failure.Failure` wrapping the exception, or a
`WormholeClosed(result)` error carrying the plain close result. -/
inductive ORes where
  | failure (e : String)
  | wormholeClosed (v : String)
deriving DecidableEq, Repr

/-- The cached `_closed_result`: either a `Failure` wrapping the exception or
the plain close result itself. -/
inductive CRes where
  | failure (e : String)
  | plain (v : String)
deriving DecidableEq, Repr

/-- Python truthiness of `_closed_result`: a `Failure` object is always truthy,
a plain string is truthy iff non-empty. -/
def CRes.truthy : CRes → Bool
  | CRes.failure _ => true
  | CRes.plain v => v ≠ ""

/-- The `_observer_result` produced by `closed(result)` for a given result. -/
def oresOf : PyRes → ORes
  | PyRes.exc e => ORes.failure e
  | PyRes.val v => ORes.wormholeClosed v

/-- The `_closed_result` produced by `closed(result)` for a given result. -/
def cresOf : PyRes → CRes
  | PyRes.exc e => CRes.failure e
  | PyRes.val v => CRes.plain v

/-- Observable outcomes of the promise-style facade's calls: a `when_*`/`close`
call either returns an already-resolved deferred (`immediate`/`immediateFail`/
`closeImmediate`), or registers a fresh pending deferred (`pendingReg`/
`closePending`); later events resolve pending deferreds (`resolved`/`errored`/
`closeResolved`). -/
inductive DEvent where
  | pendingReg (id : Nat)
  | immediate (v : String)
  | immediateFail (r : ORes)
  | resolved (id : Nat) (v : String)
  | errored (id : Nat) (r : ORes)
  | closePending (id : Nat)
  | closeImmediate (r : CRes)
  | closeResolved (id : Nat) (r : CRes)
deriving DecidableEq, Repr

/-- The deferred, if any, that an event resolves or registers. -/
def DEvent.idOf : DEvent → Option Nat
  | DEvent.pendingReg i => some i
  | DEvent.immediate _ => none
  | DEvent.immediateFail _ => none
  | DEvent.resolved i _ => some i
  | DEvent.errored i _ => some i
  | DEvent.closePending i => some i
  | DEvent.closeImmediate _ => none
  | DEvent.closeResolved i _ => some i

/-- State of `_DeferredWormhole`: the fields of `__init__` plus the deferred
allocation counter `nextId` and a counter `bossCloseCalls` of how many times
`self._boss.close()` has been invoked (the controller is external). -/
structure DeferredWormhole where
  code : Option String
  code_observers : List Nat
  key : Option (List Nat)
  verifier : Option String
  verifier_observers : List Nat
  version : Option String
  version_observers : List Nat
  received_data : List String
  received_observers : List Nat
  observer_result : Option ORes
  closed_result : Option CRes
  closed_observers : List Nat
  nextId : Nat
  bossCloseCalls : Nat
deriving DecidableEq, Repr

/-- The state built by `_DeferredWormhole.__init__`. -/
def DeferredWormhole.initial : DeferredWormhole :=
  { code := none, code_observers := [], key := none,
    verifier := none, verifier_observers := [],
    version := none, version_observers := [],
    received_data := [], received_observers := [],
    observer_result := none, closed_result := none, closed_observers := [],
    nextId := 0, bossCloseCalls := 0 }

/-- Method `when_code`: fail with the sticky observer result if set; return the cached
code if set; otherwise register a fresh pending deferred. -/
def DeferredWormhole.when_code (d : DeferredWormhole) :
    DeferredWormhole × List DEvent :=
  match d.observer_result with
  | some r => (d, [DEvent.immediateFail r])
  | none =>
    match d.code with
    | some c => (d, [DEvent.immediate c])
    | none =>
      ({ d with code_observers := d.code_observers ++ [d.nextId],
                nextId := d.nextId + 1 },
       [DEvent.pendingReg d.nextId])

/-- Method `when_verifier` (same shape as `when_code` over the verifier fields). -/
def DeferredWormhole.when_verifier (d : DeferredWormhole) :
    DeferredWormhole × List DEvent :=
  match d.observer_result with
  | some r => (d, [DEvent.immediateFail r])
  | none =>
    match d.verifier with
    | some c => (d, [DEvent.immediate c])
    | none =>
      ({ d with verifier_observers := d.verifier_observers ++ [d.nextId],
                nextId := d.nextId + 1 },
       [DEvent.pendingReg d.nextId])

/-- Method `when_version` (same shape as `when_code` over the version fields). -/
def DeferredWormhole.when_version (d : DeferredWormhole) :
    DeferredWormhole × List DEvent :=
  match d.observer_result with
  | some r => (d, [DEvent.immediateFail r])
  | none =>
    match d.version with
    | some c => (d, [DEvent.immediate c])
    | none =>
      ({ d with version_observers := d.version_observers ++ [d.nextId],
                nextId := d.nextId + 1 },
       [DEvent.pendingReg d.nextId])

/-- Method `when_received`: fail with the sticky observer result if set; pop the
oldest queued payload if the queue is non-empty (Python truthiness of the
list); otherwise register a fresh pending deferred. -/
def DeferredWormhole.when_received (d : DeferredWormhole) :
    DeferredWormhole × List DEvent :=
  match d.observer_result with
  | some r => (d, [DEvent.immediateFail r])
  | none =>
    match d.received_data with
    | p :: rest => ({ d with received_data := rest }, [DEvent.immediate p])
    | [] =>
      ({ d with received_observers := d.received_observers ++ [d.nextId],
                nextId := d.nextId + 1 },
       [DEvent.pendingReg d.nextId])

/-- Method `close`: the guard `if self._closed_result:` (truthiness!) return it immediately;
otherwise register a pending deferred and call `self._boss.close()`. -/
def DeferredWormhole.close (d : DeferredWormhole) :
    DeferredWormhole × List DEvent :=
  match d.closed_result with
  | some r =>
    if r.truthy then (d, [DEvent.closeImmediate r])
    else
      ({ d with closed_observers := d.closed_observers ++ [d.nextId],
                nextId := d.nextId + 1,
                bossCloseCalls := d.bossCloseCalls + 1 },
       [DEvent.closePending d.nextId])
  | none =>
      ({ d with closed_observers := d.closed_observers ++ [d.nextId],
                nextId := d.nextId + 1,
                bossCloseCalls := d.bossCloseCalls + 1 },
       [DEvent.closePending d.nextId])

/-- Method `got_code`: cache the code, call back every registered code observer in
registration order, then clear the list. -/
def DeferredWormhole.got_code (d : DeferredWormhole) (c : String) :
    DeferredWormhole × List DEvent :=
  ({ d with code := some c, code_observers := [] },
   d.code_observers.map (fun i => DEvent.resolved i c))

/-- Method `got_key`: store the key for `derive_key`. -/
def DeferredWormhole.got_key (d : DeferredWormhole) (k : List Nat) :
    DeferredWormhole × List DEvent :=
  ({ d with key := some k }, [])

/-- Method `got_verifier`: cache, call back observers in order, clear the list. -/
def DeferredWormhole.got_verifier (d : DeferredWormhole) (v : String) :
    DeferredWormhole × List DEvent :=
  ({ d with verifier := some v, verifier_observers := [] },
   d.verifier_observers.map (fun i => DEvent.resolved i v))

/-- Method `got_version`: cache, call back observers in order, clear the list. -/
def DeferredWormhole.got_version (d : DeferredWormhole) (v : String) :
    DeferredWormhole × List DEvent :=
  ({ d with version := some v, version_observers := [] },
   d.version_observers.map (fun i => DEvent.resolved i v))

/-- Method `received`: resolve the oldest waiting observer if one exists, otherwise
append the payload to the queue. -/
def DeferredWormhole.received (d : DeferredWormhole) (p : String) :
    DeferredWormhole × List DEvent :=
  match d.received_observers with
  | i :: rest => ({ d with received_observers := rest }, [DEvent.resolved i p])
  | [] => ({ d with received_data := d.received_data ++ [p] }, [])

/-- Method `closed(result)`: set the sticky observer result (a `Failure` for an
exception result, `WormholeClosed(result)` otherwise) and the cached close
result (the `Failure`, resp. the plain result); errback every pending
verifier, version and received observer with the observer result; call back
every pending close observer with the close result.  Note that the source
does not errback `_code_observers` and does not clear any observer list. -/
def DeferredWormhole.closed (d : DeferredWormhole) (r : PyRes) :
    DeferredWormhole × List DEvent :=
  ({ d with observer_result := some (oresOf r), closed_result := some (cresOf r) },
   d.verifier_observers.map (fun i => DEvent.errored i (oresOf r))
     ++ d.version_observers.map (fun i => DEvent.errored i (oresOf r))
     ++ d.received_observers.map (fun i => DEvent.errored i (oresOf r))
     ++ d.closed_observers.map (fun i => DEvent.closeResolved i (cresOf r)))

/-- The calls that can be made on a `_DeferredWormhole`: application-facing
calls (`when_*`, `close`) and controller-delivered events (`got_*`,
`received`, `closed`). -/
inductive Act where
  | whenCode
  | whenVerifier
  | whenVersion
  | whenReceived
  | closeAct
  | gotCode (c : String)
  | gotKey (k : List Nat)
  | gotVerifier (v : String)
  | gotVersion (v : String)
  | recv (p : String)
  | closedAct (r : PyRes)
deriving DecidableEq, Repr

/-- Dispatch one call on the facade. -/
def stepD (d : DeferredWormhole) : Act → DeferredWormhole × List DEvent
  | Act.whenCode => d.when_code
  | Act.whenVerifier => d.when_verifier
  | Act.whenVersion => d.when_version
  | Act.whenReceived => d.when_received
  | Act.closeAct => d.close
  | Act.gotCode c => d.got_code c
  | Act.gotKey k => d.got_key k
  | Act.gotVerifier v => d.got_verifier v
  | Act.gotVersion v => d.got_version v
  | Act.recv p => d.received p
  | Act.closedAct r => d.closed r

/-- Run a sequence of calls, concatenating the emitted events. -/
def runDW (d : DeferredWormhole) : List Act → DeferredWormhole × List DEvent
  | [] => (d, [])
  | a :: t =>
    ((runDW (stepD d a).1 t).1, (stepD d a).2 ++ (runDW (stepD d a).1 t).2)

theorem runDW_append (d : DeferredWormhole) (t u : List Act) :
    runDW d (t ++ u) =
      ((runDW (runDW d t).1 u).1, (runDW d t).2 ++ (runDW (runDW d t).1 u).2) := by
  induction t generalizing d with
  | nil => simp [runDW]
  | cons a t ih => simp [runDW, ih, List.append_assoc]

/-- A Python value passed as the `purpose` argument of `derive_key`:
a text value or a representative non-text value. -/
inductive PyObj where
  | str (s : String)
  | bytes (b : List Nat)
  | intV (n : Int)
deriving DecidableEq, Repr

/-- The errors `derive_key` can raise synchronously. -/
inductive DKErr where
  | typeError
  | noKeyError
deriving DecidableEq, Repr

/-- Python truthiness of the stored key: `None` and the empty byte string are
falsy, everything else truthy. -/
def keyTruthy : Option (List Nat) → Bool
  | none => false
  | some k => !k.isEmpty

/-- Modelled from the spec: the byte encoding `to_bytes(purpose)` from the
`util` module, which is not under src/; the claims settled here never depend
on the particular encoding, only on its determinism. -/
def to_bytes (s : String) : List Nat :=
  s.data.map Char.toNat

/-- Modelled from the spec: the key-derivation primitive `derive_key` from the
`_key` module, which is not under src/.  The spec only requires it to be a
deterministic function of the session key and the purpose bytes. -/
def derive_key_prim (key pb : List Nat) (length : Nat) : List Nat :=
  List.replicate length (key.length + pb.length)

/-- The shared body of `_DelegatedWormhole.derive_key` and
`_DeferredWormhole.derive_key` (the two methods are textually identical):
raise `TypeError` unless `purpose` is a text value, raise `NoKeyError` if the
stored key is falsy (`if not self._key`), else derive. -/
def derive_key_m (key : Option (List Nat)) (purpose : PyObj) (length : Nat) :
    Except DKErr (List Nat) :=
  match purpose with
  | PyObj.str s =>
    match key with
    | some k =>
      if k.isEmpty then Except.error DKErr.noKeyError
      else Except.ok (derive_key_prim k (to_bytes s) length)
    | none => Except.error DKErr.noKeyError
  | _ => Except.error DKErr.typeError

/-- Method `_DeferredWormhole.derive_key`. -/
def DeferredWormhole.derive_key (d : DeferredWormhole) (purpose : PyObj)
    (length : Nat) : Except DKErr (List Nat) :=
  derive_key_m d.key purpose length

/-- The key-handling state of `_DelegatedWormhole` (`self._key`); its other
methods only forward to the delegate or the controller and carry no state
relevant to the claims. -/
structure DelegatedWormhole where
  key : Option (List Nat)
deriving DecidableEq, Repr

/-- Constructor hook `_DelegatedWormhole.__attrs_post_init__` sets `self._key = None`. -/
def DelegatedWormhole.initial : DelegatedWormhole := { key := none }

/-- Method `_DelegatedWormhole.got_key`. -/
def DelegatedWormhole.got_key (d : DelegatedWormhole) (k : List Nat) :
    DelegatedWormhole :=
  { d with key := some k }

/-- Method `_DelegatedWormhole.derive_key`. -/
def DelegatedWormhole.derive_key (d : DelegatedWormhole) (purpose : PyObj)
    (length : Nat) : Except DKErr (List Nat) :=
  derive_key_m d.key purpose length

/-- A welcome message: a mapping with the three optional keys the evaluator
inspects. -/
structure WelcomeMsg where
  motd : Option String
  current_cli_version : Option String
  error : Option String
deriving DecidableEq, Repr

/-- The `signal_error` callback handed to `_WelcomeHandler`: either a real
callable, or the `NotImplemented` placeholder that `create` installs for the
default handler (calling it raises `TypeError`). -/
inductive SigErr where
  | callable
  | notImplemented
deriving DecidableEq, Repr

/-- State of `_WelcomeHandler`. -/
structure WHState where
  ws_url : String
  version_warning_displayed : Bool
  current_version : String
  signal_error : SigErr
deriving DecidableEq, Repr

/-- Constructor `_WelcomeHandler.__init__`. -/
def mkWelcomeHandler (url ver : String) (sig : SigErr) : WHState :=
  { ws_url := url, version_warning_displayed := false,
    current_version := ver, signal_error := sig }

/-- Observable effects of `handle_welcome`: the motd print, the two-line
version warning, the `signal_error(WelcomeError(err), "unwelcome")` call, or
the `TypeError` crash from calling the `NotImplemented` placeholder. -/
inductive WOut where
  | motdOut (text : String)
  | versionWarning (server ours : String)
  | signaled (werr tag : String)
  | typeErrorCrash
deriving DecidableEq, Repr

/-- The condition guarding the version warning in `handle_welcome`:
`current_cli_version` present, no "-" in our version, warning not yet
displayed, and the advertised version differs from ours. -/
def warnCondition (s : WHState) (w : WelcomeMsg) : Bool :=
  match w.current_cli_version with
  | some scv =>
    !s.current_version.contains '-' && !s.version_warning_displayed
      && scv != s.current_version
  | none => false

/-- Method `_WelcomeHandler.handle_welcome`: print the motd if present; emit the
one-time version warning when `warnCondition` holds (latching the displayed
flag); if `error` is present call `signal_error(WelcomeError(...),
"unwelcome")` - which crashes with `TypeError` when the placeholder
`NotImplemented` was installed.  (The motd reformatting uses `splitOn "\n"`
in place of Python `splitlines`; no claim depends on the text itself.) -/
def handle_welcome (s : WHState) (w : WelcomeMsg) : WHState × List WOut :=
  let motdOuts : List WOut :=
    match w.motd with
    | some m =>
      [WOut.motdOut ("Server (at " ++ s.ws_url ++ ") says:\n "
        ++ String.intercalate "\n " (m.splitOn "\n"))]
    | none => []
  let warnOuts : List WOut :=
    if warnCondition s w then
      [WOut.versionWarning (w.current_cli_version.getD "") s.current_version]
    else []
  let s1 : WHState :=
    if warnCondition s w then { s with version_warning_displayed := true } else s
  let errOuts : List WOut :=
    match w.error with
    | some e =>
      match s.signal_error with
      | SigErr.callable => [WOut.signaled e "unwelcome"]
      | SigErr.notImplemented => [WOut.typeErrorCrash]
    | none => []
  (s1, motdOuts ++ warnOuts ++ errOuts)

/-- Deliver a sequence of welcome messages to one evaluator instance. -/
def runWH (s : WHState) : List WelcomeMsg → WHState × List WOut
  | [] => (s, [])
  | w :: ws =>
    ((runWH (handle_welcome s w).1 ws).1,
     (handle_welcome s w).2 ++ (runWH (handle_welcome s w).1 ws).2)

/-- Is this output the version-compatibility warning? -/
def isWarnEv : WOut → Bool
  | WOut.versionWarning _ _ => true
  | _ => false

/-- Number of version warnings in an output list. -/
def countWarn (l : List WOut) : Nat :=
  l.countP isWarnEv

/-- Does an output list contain the version warning? -/
def hasWarn (l : List WOut) : Bool :=
  l.any isWarnEv

/-- The welcome-handler state installed by `create` when no custom welcome
handler is supplied: `signal_error` is the `NotImplemented` placeholder
(marked TODO in the source). -/
def defaultWelcomeHandler (relay_url version : String) : WHState :=
  mkWelcomeHandler relay_url version SigErr.notImplemented

/-- The received-message subsystem of `_DeferredWormhole` in isolation
(`_received_data` / `_received_observers`, manipulated only by
`when_received` with no sticky observer result and by `received`),
instrumented with a ghost numbering of consumer requests: `next_req` numbers
every `when_received` call in call order (in the source only the calls that
have to wait allocate a `Deferred`; the ghost number of an immediately served
call identifies "the i-th request" of the FIFO law), and `log` records which
request was served which payload. -/
structure RecvState where
  received_data : List String
  received_observers : List Nat
  next_req : Nat
  log : List (Nat × String)
deriving DecidableEq, Repr

/-- Fresh received-subsystem state. -/
def RecvState.initial : RecvState :=
  { received_data := [], received_observers := [], next_req := 0, log := [] }

/-- Method `when_received` (pre-close): pop the oldest queued payload if the queue is
non-empty and serve this request immediately, else enqueue the request. -/
def RecvState.when_received (s : RecvState) : RecvState :=
  match s.received_data with
  | p :: rest =>
    { s with received_data := rest, next_req := s.next_req + 1,
             log := s.log ++ [(s.next_req, p)] }
  | [] =>
    { s with received_observers := s.received_observers ++ [s.next_req],
             next_req := s.next_req + 1 }

/-- Method `received(payload)`: serve the oldest waiting request if one exists, else
enqueue the payload. -/
def RecvState.received (s : RecvState) (p : String) : RecvState :=
  match s.received_observers with
  | i :: rest => { s with received_observers := rest, log := s.log ++ [(i, p)] }
  | [] => { s with received_data := s.received_data ++ [p] }

/-- One side of the received-message interleaving: a consumer request or a
delivered payload. -/
inductive RAct where
  | ask
  | recv (p : String)
deriving DecidableEq, Repr

/-- Dispatch one received-subsystem action. -/
def stepR (s : RecvState) : RAct → RecvState
  | RAct.ask => s.when_received
  | RAct.recv p => s.received p

/-- Run an interleaving of requests and deliveries. -/
def runR (s : RecvState) : List RAct → RecvState
  | [] => s
  | a :: t => runR (stepR s a) t

theorem runR_append (s : RecvState) (t u : List RAct) :
    runR s (t ++ u) = runR (runR s t) u := by
  induction t generalizing s with
  | nil => simp [runR]
  | cons a t ih => simp [runR, ih]

/-- The payloads delivered by an interleaving, in delivery order. -/
def payloadsOf (t : List RAct) : List String :=
  t.filterMap (fun a => match a with | RAct.recv p => some p | RAct.ask => none)

/-- The number of consumer requests in an interleaving. -/
def asksOf (t : List RAct) : Nat :=
  t.countP (fun a => match a with | RAct.ask => true | RAct.recv _ => false)


/-- C6.  FIFO pairing law for the received-message queues of the promise-style
facade: for every interleaving of `received(payload_i)` deliveries and
`when_received()` requests (no close intervening), writing `ps` for the
payloads in delivery order, `m` for the number of requests and
`k = min ps.length m`, the service log pairs request `i` with payload `i` for
every `i < k` (each request is served exactly one payload, both sides
first-come-first-served), the leftover payloads `ps.drop k` remain queued in
delivery order, and the leftover requests `k, ..., m-1` remain queued in
request order. -/
theorem c6_received_fifo_pairing (t : List RAct) :
    (runR RecvState.initial t).log
        = (List.range (min (payloadsOf t).length (asksOf t))).zip
            ((payloadsOf t).take (min (payloadsOf t).length (asksOf t)))
    ∧ (runR RecvState.initial t).received_data
        = (payloadsOf t).drop (min (payloadsOf t).length (asksOf t))
    ∧ (runR RecvState.initial t).received_observers
        = List.range' (min (payloadsOf t).length (asksOf t))
            (asksOf t - min (payloadsOf t).length (asksOf t))
    ∧ (runR RecvState.initial t).next_req = asksOf t := by
  induction t using List.reverseRecOn with
  | nil => simp [runR, RecvState.initial, payloadsOf, asksOf]
  | append_singleton t a ih =>
    obtain ⟨hlog, hq, hw, hn⟩ := ih
    rw [runR_append]
    have hrun : ∀ b, runR (runR RecvState.initial t) [b]
        = stepR (runR RecvState.initial t) b := by
      intro b; simp [runR]
    rw [hrun]
    cases a with
    | ask =>
      have hps : payloadsOf (t ++ [RAct.ask]) = payloadsOf t := by
        simp [payloadsOf]
      have hasks : asksOf (t ++ [RAct.ask]) = asksOf t + 1 := by
        simp [asksOf]
      rw [hps, hasks]
      rcases hq2 : (runR RecvState.initial t).received_data with _ | ⟨p, rest⟩
      · -- queue empty: all payloads so far are consumed, the request waits
        have hlen : (payloadsOf t).length - min (payloadsOf t).length (asksOf t)
            = 0 := by
          have := congrArg List.length (hq.symm.trans hq2)
          simpa using this
        have hk : min (payloadsOf t).length (asksOf t)
            = (payloadsOf t).length := by omega
        have hnm : (payloadsOf t).length ≤ asksOf t := by omega
        have hk' : min (payloadsOf t).length (asksOf t + 1)
            = min (payloadsOf t).length (asksOf t) := by omega
        simp only [stepR, RecvState.when_received, hq2, hk']
        refine ⟨hlog, (hq.symm.trans hq2).symm, ?_, by omega⟩
        rw [hw, hn, hk,
            show asksOf t + 1 - (payloadsOf t).length
              = (asksOf t - (payloadsOf t).length) + 1 by omega,
            List.range'_concat]
        simp
        omega
      · -- queue non-empty: no request waits, serve the head payload at once
        have hlen : (payloadsOf t).length - min (payloadsOf t).length (asksOf t)
            = rest.length + 1 := by
          have := congrArg List.length (hq.symm.trans hq2)
          simpa using this
        have hk : min (payloadsOf t).length (asksOf t) = asksOf t := by omega
        have hmn : asksOf t < (payloadsOf t).length := by omega
        have hk' : min (payloadsOf t).length (asksOf t + 1) = asksOf t + 1 := by
          omega
        simp only [stepR, RecvState.when_received, hq2, hk']
        rw [hk] at hlog hq hw
        refine ⟨?_, ?_, ?_, by omega⟩
        · rw [hlog, hn, List.range_succ,
              show (payloadsOf t).take (asksOf t + 1)
                  = (payloadsOf t).take (asksOf t)
                      ++ ((payloadsOf t).drop (asksOf t)).take 1 from
                List.take_add _ _ _,
              hq.symm.trans hq2,
              List.zip_append (by simp; omega)]
          simp
        · rw [show (payloadsOf t).drop (asksOf t + 1)
                  = ((payloadsOf t).drop (asksOf t)).drop 1 from
                (List.drop_drop _ _ _).symm,
              hq.symm.trans hq2]
          simp
        · rw [hw]
          simp
    | recv p =>
      have hps : payloadsOf (t ++ [RAct.recv p]) = payloadsOf t ++ [p] := by
        simp [payloadsOf]
      have hasks : asksOf (t ++ [RAct.recv p]) = asksOf t := by
        simp [asksOf]
      rw [hps, hasks]
      rcases hw2 : (runR RecvState.initial t).received_observers
        with _ | ⟨i, rest⟩
      · -- no waiting request: the payload is queued
        have hlen : asksOf t - min (payloadsOf t).length (asksOf t) = 0 := by
          have := congrArg List.length (hw.symm.trans hw2)
          simpa using this
        have hk : min (payloadsOf t).length (asksOf t) = asksOf t := by omega
        have hmn : asksOf t ≤ (payloadsOf t).length := by omega
        have hk' : min (payloadsOf t ++ [p]).length (asksOf t) = asksOf t := by
          simp
          omega
        simp only [stepR, RecvState.received, hw2, hk']
        rw [hk] at hlog hq hw
        refine ⟨?_, ?_, ?_, hn⟩
        · rw [List.take_append_of_le_length hmn, hlog]
        · rw [List.drop_append_of_le_length hmn, hq]
        · simp
      · -- a request is waiting: it is the oldest one, numbered min = length ps
        have hlen : asksOf t - min (payloadsOf t).length (asksOf t)
            = rest.length + 1 := by
          have := congrArg List.length (hw.symm.trans hw2)
          simpa using this
        have hk : min (payloadsOf t).length (asksOf t)
            = (payloadsOf t).length := by omega
        have hnm : (payloadsOf t).length < asksOf t := by omega
        have hk' : min (payloadsOf t ++ [p]).length (asksOf t)
            = (payloadsOf t).length + 1 := by
          simp
          omega
        have hw' : i = (payloadsOf t).length
            ∧ rest = List.range' ((payloadsOf t).length + 1)
                (asksOf t - ((payloadsOf t).length + 1)) := by
          rw [hk,
              show asksOf t - (payloadsOf t).length
                = (asksOf t - ((payloadsOf t).length + 1)) + 1 by omega,
              List.range'_succ] at hw
          have h2 := hw.symm.trans hw2
          simp at h2
          exact ⟨h2.1.symm, h2.2.symm⟩
        simp only [stepR, RecvState.received, hw2, hk']
        rw [hk] at hlog hq
        refine ⟨?_, ?_, hw'.2, hn⟩
        · rw [hlog, List.take_length, hw'.1,
              show (payloadsOf t ++ [p]).take ((payloadsOf t).length + 1)
                  = payloadsOf t ++ [p] from by
                rw [show (payloadsOf t).length + 1
                      = (payloadsOf t ++ [p]).length by simp]
                exact List.take_length _,
              List.range_succ,
              List.zip_append (by simp)]
          simp
        · rw [hq, List.drop_length,
              show (payloadsOf t).length + 1
                  = (payloadsOf t ++ [p]).length by simp,
              List.drop_length]

/-- Is the action one of the two received-subsystem operations? -/
def isRecvOp : Act → Bool
  | Act.whenReceived => true
  | Act.recv _ => true
  | _ => false

/-- C7.  Class invariant of the promise-style facade: under any sequence of
`when_received()` calls and `received(payload)` events from a fresh facade,
at most one of the undelivered-payload queue (`_received_data`) and the
undelivered-request queue (`_received_observers`) is non-empty. -/
theorem c7_queues_invariant (t : List Act)
    (h : ∀ a ∈ t, isRecvOp a = true) :
    (runDW DeferredWormhole.initial t).1.received_data = []
    ∨ (runDW DeferredWormhole.initial t).1.received_observers = [] := by
  have main : ∀ (u : List Act) (d : DeferredWormhole),
      (∀ a ∈ u, isRecvOp a = true) →
      (d.received_data = [] ∨ d.received_observers = []) →
      ((runDW d u).1.received_data = []
        ∨ (runDW d u).1.received_observers = []) := by
    intro u
    induction u with
    | nil => intro d _ hd; simpa [runDW] using hd
    | cons a u ih =>
      intro d hu hd
      have ha : isRecvOp a = true := hu a (by simp)
      have hu' : ∀ b ∈ u, isRecvOp b = true := fun b hb => hu b (by simp [hb])
      have hstep : (stepD d a).1.received_data = []
          ∨ (stepD d a).1.received_observers = [] := by
        cases a <;> simp [isRecvOp] at ha
        · -- when_received
          cases hor : d.observer_result with
          | some r => simpa [stepD, DeferredWormhole.when_received, hor] using hd
          | none =>
            cases hq : d.received_data with
            | nil => simp [stepD, DeferredWormhole.when_received, hor, hq]
            | cons p rest =>
              rcases hd with h1 | h2
              · rw [hq] at h1; cases h1
              · simp [stepD, DeferredWormhole.when_received, hor, hq, h2]
        · -- received
          cases hw : d.received_observers with
          | nil => simp [stepD, DeferredWormhole.received, hw]
          | cons i rest =>
            rcases hd with h1 | h2
            · simp [stepD, DeferredWormhole.received, hw, h1]
            · rw [hw] at h2; cases h2
      simpa [runDW] using ih (stepD d a).1 hu' hstep
  exact main t DeferredWormhole.initial h (Or.inl rfl)

/-- Witness for C7 at a concrete interleaving. -/
theorem c7_queues_invariant_witness :
    (runDW DeferredWormhole.initial [Act.recv "x", Act.whenReceived]).1.received_data = []
    ∨ (runDW DeferredWormhole.initial [Act.recv "x", Act.whenReceived]).1.received_observers = [] :=
  c7_queues_invariant [Act.recv "x", Act.whenReceived] (by decide)

/-- C2 (failing-input evaluation).  `closed(...)` never clears `self._key`:
after `got_key(b"\x01\x02\x03")` and `closed("happy")`, the key is still
stored and `derive_key("purpose", 32)` returns derived bytes instead of
raising `NoKeyError`, contradicting the claim (and the method's own
docstring, which says it cannot be called after close). -/
theorem c2_key_survives_close :
    ((runDW DeferredWormhole.initial
        [Act.gotKey [1, 2, 3], Act.closedAct (PyRes.val "happy")]).1).key
        = some [1, 2, 3]
    ∧ DeferredWormhole.derive_key
        ((runDW DeferredWormhole.initial
            [Act.gotKey [1, 2, 3], Act.closedAct (PyRes.val "happy")]).1)
        (PyObj.str "purpose") 32
        = Except.ok (derive_key_prim [1, 2, 3] (to_bytes "purpose") 32) :=
  ⟨rfl, rfl⟩

/-- C9 (failing-input evaluation).  For the default evaluator built by
`create` (no custom welcome handler), `signal_error` is the non-callable
`NotImplemented` placeholder, so a welcome carrying an `error` field crashes
with `TypeError` instead of signalling `WelcomeError`; with a real callable
the `WelcomeError` is signalled with tag "unwelcome". -/
theorem c9_default_welcome_error_crash :
    (handle_welcome (defaultWelcomeHandler "ws://relay" "0.9.1")
        { motd := none, current_cli_version := none, error := some "abort" }).2
      = [WOut.typeErrorCrash]
    ∧ (handle_welcome (mkWelcomeHandler "ws://relay" "0.9.1" SigErr.callable)
        { motd := none, current_cli_version := none, error := some "abort" }).2
      = [WOut.signaled "abort" "unwelcome"] :=
  ⟨rfl, rfl⟩

/-- C1 counterexample.  With one pending `when_code()` future, the claim says
`closed(SomeException("boom"))` fails that future with the error; in the
source `closed` emits no event at all for it (the fan-out list is empty) and
leaves the code-observer list untouched, so the pending future is silently
dropped. -/
theorem c1_counterexample :
    (DeferredWormhole.closed (runDW DeferredWormhole.initial [Act.whenCode]).1
        (PyRes.exc "boom")).2 = []
    ∧ (DeferredWormhole.closed (runDW DeferredWormhole.initial [Act.whenCode]).1
        (PyRes.exc "boom")).1.code_observers = [0] :=
  ⟨rfl, rfl⟩

/-- C3 counterexample.  Two `close()` calls while no terminal result is set
(second call in flight during the first) invoke `self._boss.close()` twice,
contradicting "the controller's close logic is triggered at most once". -/
theorem c3_counterexample :
    (runDW DeferredWormhole.initial [Act.closeAct, Act.closeAct]).1.bossCloseCalls = 2 :=
  rfl

/-- C4 counterexample.  After `closed("")` (a falsy plain result), a later
`close()` does not resolve with the plain result: `if self._closed_result:`
is a truthiness test, so the call registers a fresh pending deferred (which
nothing will ever resolve, `closed` being terminal) and re-invokes the
controller's close logic. -/
theorem c4_counterexample :
    (runDW DeferredWormhole.initial
        [Act.closedAct (PyRes.val ""), Act.closeAct]).2 = [DEvent.closePending 0]
    ∧ (runDW DeferredWormhole.initial
        [Act.closedAct (PyRes.val ""), Act.closeAct]).1.bossCloseCalls = 1 :=
  ⟨rfl, rfl⟩

/-- Before `got_code`, each `when_code` call registers a fresh deferred:
`a` consecutive calls register ids `nextId, ..., nextId + a - 1` in order. -/
theorem whens_pending_code (a : Nat) (d : DeferredWormhole)
    (h1 : d.observer_result = none) (h2 : d.code = none) :
    runDW d (List.replicate a Act.whenCode) =
      ({ d with code_observers := d.code_observers ++ List.range' d.nextId a,
                nextId := d.nextId + a },
       (List.range' d.nextId a).map DEvent.pendingReg) := by
  induction a generalizing d with
  | zero => simp [runDW]
  | succ a ih =>
    rw [List.replicate_succ]
    have hstep : stepD d Act.whenCode
        = ({ d with code_observers := d.code_observers ++ [d.nextId],
                    nextId := d.nextId + 1 },
           [DEvent.pendingReg d.nextId]) := by
      simp [stepD, DeferredWormhole.when_code, h1, h2]
    simp only [runDW, hstep]
    rw [ih { d with code_observers := d.code_observers ++ [d.nextId],
                    nextId := d.nextId + 1 } h1 h2]
    simp [List.range'_succ, List.append_assoc]
    try omega

/-- After `got_code`, each `when_code` call returns the cached code at once
and leaves the state unchanged. -/
theorem whens_immediate_code (b : Nat) (d : DeferredWormhole) (c : String)
    (h1 : d.observer_result = none) (h2 : d.code = some c) :
    runDW d (List.replicate b Act.whenCode)
      = (d, List.replicate b (DEvent.immediate c)) := by
  induction b with
  | zero => simp [runDW]
  | succ b ih =>
    rw [List.replicate_succ]
    have hstep : stepD d Act.whenCode = (d, [DEvent.immediate c]) := by
      simp [stepD, DeferredWormhole.when_code, h1, h2]
    simp only [runDW, hstep]
    rw [ih]
    simp [List.replicate_succ]

/-- Verifier analogue of `whens_pending_code`. -/
theorem whens_pending_verifier (a : Nat) (d : DeferredWormhole)
    (h1 : d.observer_result = none) (h2 : d.verifier = none) :
    runDW d (List.replicate a Act.whenVerifier) =
      ({ d with verifier_observers := d.verifier_observers ++ List.range' d.nextId a,
                nextId := d.nextId + a },
       (List.range' d.nextId a).map DEvent.pendingReg) := by
  induction a generalizing d with
  | zero => simp [runDW]
  | succ a ih =>
    rw [List.replicate_succ]
    have hstep : stepD d Act.whenVerifier
        = ({ d with verifier_observers := d.verifier_observers ++ [d.nextId],
                    nextId := d.nextId + 1 },
           [DEvent.pendingReg d.nextId]) := by
      simp [stepD, DeferredWormhole.when_verifier, h1, h2]
    simp only [runDW, hstep]
    rw [ih { d with verifier_observers := d.verifier_observers ++ [d.nextId],
                    nextId := d.nextId + 1 } h1 h2]
    simp [List.range'_succ, List.append_assoc]
    try omega

/-- Verifier analogue of `whens_immediate_code`. -/
theorem whens_immediate_verifier (b : Nat) (d : DeferredWormhole) (c : String)
    (h1 : d.observer_result = none) (h2 : d.verifier = some c) :
    runDW d (List.replicate b Act.whenVerifier)
      = (d, List.replicate b (DEvent.immediate c)) := by
  induction b with
  | zero => simp [runDW]
  | succ b ih =>
    rw [List.replicate_succ]
    have hstep : stepD d Act.whenVerifier = (d, [DEvent.immediate c]) := by
      simp [stepD, DeferredWormhole.when_verifier, h1, h2]
    simp only [runDW, hstep]
    rw [ih]
    simp [List.replicate_succ]

/-- Version analogue of `whens_pending_code`. -/
theorem whens_pending_version (a : Nat) (d : DeferredWormhole)
    (h1 : d.observer_result = none) (h2 : d.version = none) :
    runDW d (List.replicate a Act.whenVersion) =
      ({ d with version_observers := d.version_observers ++ List.range' d.nextId a,
                nextId := d.nextId + a },
       (List.range' d.nextId a).map DEvent.pendingReg) := by
  induction a generalizing d with
  | zero => simp [runDW]
  | succ a ih =>
    rw [List.replicate_succ]
    have hstep : stepD d Act.whenVersion
        = ({ d with version_observers := d.version_observers ++ [d.nextId],
                    nextId := d.nextId + 1 },
           [DEvent.pendingReg d.nextId]) := by
      simp [stepD, DeferredWormhole.when_version, h1, h2]
    simp only [runDW, hstep]
    rw [ih { d with version_observers := d.version_observers ++ [d.nextId],
                    nextId := d.nextId + 1 } h1 h2]
    simp [List.range'_succ, List.append_assoc]
    try omega

/-- Version analogue of `whens_immediate_code`. -/
theorem whens_immediate_version (b : Nat) (d : DeferredWormhole) (c : String)
    (h1 : d.observer_result = none) (h2 : d.version = some c) :
    runDW d (List.replicate b Act.whenVersion)
      = (d, List.replicate b (DEvent.immediate c)) := by
  induction b with
  | zero => simp [runDW]
  | succ b ih =>
    rw [List.replicate_succ]
    have hstep : stepD d Act.whenVersion = (d, [DEvent.immediate c]) := by
      simp [stepD, DeferredWormhole.when_version, h1, h2]
    simp only [runDW, hstep]
    rw [ih]
    simp [List.replicate_succ]

/-- C5.  For each event category in {code, verifier, version} and every
interleaving of `when_X` calls with the single `got_X(value)` event (`a`
calls before, `b` calls after; since all `when_X` calls are identical every
interleaving has this shape): the `a` earlier calls register pending
deferreds `0, ..., a-1`; `got_X` resolves exactly those deferreds, once each,
with the value, in registration order, and clears the waiter list; the `b`
later calls return immediately with the cached value. -/
theorem c5_when_got_interleavings (a b : Nat) (v : String) :
    ((runDW DeferredWormhole.initial
        (List.replicate a Act.whenCode
          ++ Act.gotCode v :: List.replicate b Act.whenCode)).2
      = (List.range a).map DEvent.pendingReg
        ++ (List.range a).map (fun i => DEvent.resolved i v)
        ++ List.replicate b (DEvent.immediate v)
    ∧ (runDW DeferredWormhole.initial
        (List.replicate a Act.whenCode
          ++ Act.gotCode v :: List.replicate b Act.whenCode)).1.code_observers
        = []
    ∧ (runDW DeferredWormhole.initial
        (List.replicate a Act.whenCode
          ++ Act.gotCode v :: List.replicate b Act.whenCode)).1.code = some v)
    ∧ ((runDW DeferredWormhole.initial
        (List.replicate a Act.whenVerifier
          ++ Act.gotVerifier v :: List.replicate b Act.whenVerifier)).2
      = (List.range a).map DEvent.pendingReg
        ++ (List.range a).map (fun i => DEvent.resolved i v)
        ++ List.replicate b (DEvent.immediate v)
    ∧ (runDW DeferredWormhole.initial
        (List.replicate a Act.whenVerifier
          ++ Act.gotVerifier v :: List.replicate b Act.whenVerifier)).1.verifier_observers
        = []
    ∧ (runDW DeferredWormhole.initial
        (List.replicate a Act.whenVerifier
          ++ Act.gotVerifier v :: List.replicate b Act.whenVerifier)).1.verifier
        = some v)
    ∧ ((runDW DeferredWormhole.initial
        (List.replicate a Act.whenVersion
          ++ Act.gotVersion v :: List.replicate b Act.whenVersion)).2
      = (List.range a).map DEvent.pendingReg
        ++ (List.range a).map (fun i => DEvent.resolved i v)
        ++ List.replicate b (DEvent.immediate v)
    ∧ (runDW DeferredWormhole.initial
        (List.replicate a Act.whenVersion
          ++ Act.gotVersion v :: List.replicate b Act.whenVersion)).1.version_observers
        = []
    ∧ (runDW DeferredWormhole.initial
        (List.replicate a Act.whenVersion
          ++ Act.gotVersion v :: List.replicate b Act.whenVersion)).1.version
        = some v) := by
  refine ⟨⟨?_, ?_, ?_⟩, ⟨?_, ?_, ?_⟩, ⟨?_, ?_, ?_⟩⟩ <;>
    simp [runDW_append, runDW, stepD,
      DeferredWormhole.got_code, DeferredWormhole.got_verifier,
      DeferredWormhole.got_version, DeferredWormhole.initial,
      whens_pending_code, whens_pending_verifier, whens_pending_version,
      whens_immediate_code, whens_immediate_verifier, whens_immediate_version,
      List.range_eq_range']

/-- Is the action one of the four `when_*` calls? -/
def isWhen : Act → Bool
  | Act.whenCode => true
  | Act.whenVerifier => true
  | Act.whenVersion => true
  | Act.whenReceived => true
  | _ => false

/-- Is the action the controller-delivered `closed` event? -/
def isClosedAct : Act → Bool
  | Act.closedAct _ => true
  | _ => false

/-- Number of `close()` calls in a call sequence. -/
def numCloseCalls : List Act → Nat
  | [] => 0
  | a :: t => (if a = Act.closeAct then 1 else 0) + numCloseCalls t

/-- Two id lists with no common element. -/
def DisjL (X Y : List Nat) : Prop := ∀ i ∈ X, i ∉ Y

/-- All registered deferred ids of a facade state. -/
def allObs (d : DeferredWormhole) : List Nat :=
  d.code_observers ++ d.verifier_observers ++ d.version_observers
    ++ d.received_observers ++ d.closed_observers

/-- Well-formedness of a facade state: every observer list holds pairwise
distinct deferred ids, the lists are pairwise disjoint (each deferred is
registered in one place only), and all ids are below the allocation counter.
Every state reachable from `DeferredWormhole.initial` is well-formed. -/
def WF (d : DeferredWormhole) : Prop :=
  d.code_observers.Nodup ∧ d.verifier_observers.Nodup
  ∧ d.version_observers.Nodup ∧ d.received_observers.Nodup
  ∧ d.closed_observers.Nodup
  ∧ (∀ i ∈ allObs d, i < d.nextId)
  ∧ DisjL d.code_observers d.verifier_observers
  ∧ DisjL d.code_observers d.version_observers
  ∧ DisjL d.code_observers d.received_observers
  ∧ DisjL d.code_observers d.closed_observers
  ∧ DisjL d.verifier_observers d.version_observers
  ∧ DisjL d.verifier_observers d.received_observers
  ∧ DisjL d.verifier_observers d.closed_observers
  ∧ DisjL d.version_observers d.received_observers
  ∧ DisjL d.version_observers d.closed_observers
  ∧ DisjL d.received_observers d.closed_observers

theorem not_mem_of_forall_lt {l : List Nat} {n : Nat} (h : ∀ i ∈ l, i < n) :
    n ∉ l :=
  fun hm => absurd (h n hm) (Nat.lt_irrefl n)

theorem nodup_snoc {l : List Nat} {n : Nat} (h : l.Nodup) (hn : n ∉ l) :
    (l ++ [n]).Nodup := by
  rw [List.nodup_append]
  refine ⟨h, List.nodup_singleton n, fun i hi hmem => ?_⟩
  simp at hmem
  subst hmem
  exact hn hi

theorem disjL_snoc_left {X Y : List Nat} {n : Nat} (h : DisjL X Y)
    (hn : n ∉ Y) : DisjL (X ++ [n]) Y := by
  intro i hi
  rcases List.mem_append.1 hi with h1 | h2
  · exact h i h1
  · simp at h2
    subst h2
    exact hn

theorem disjL_snoc_right {X Y : List Nat} {n : Nat} (h : DisjL X Y)
    (hb : ∀ i ∈ X, i < n) : DisjL X (Y ++ [n]) := by
  intro i hi hmem
  rcases List.mem_append.1 hmem with h1 | h2
  · exact h i hi h1
  · simp at h2
    subst h2
    exact absurd (hb i hi) (Nat.lt_irrefl i)

theorem disjL_sub_left {X X' Y : List Nat} (h : DisjL X Y)
    (hs : ∀ i ∈ X', i ∈ X) : DisjL X' Y :=
  fun i hi => h i (hs i hi)

theorem disjL_sub_right {X Y Y' : List Nat} (h : DisjL X Y)
    (hs : ∀ i ∈ Y', i ∈ Y) : DisjL X Y' :=
  fun i hi hm => h i hi (hs i hm)

theorem disjL_nil_left {Y : List Nat} : DisjL [] Y :=
  fun i hi => absurd hi (List.not_mem_nil i)

theorem disjL_nil_right {X : List Nat} : DisjL X [] :=
  fun i _ hm => absurd hm (List.not_mem_nil i)

/-- Number of occurrences of an event in an event log. -/
def countEv (ev : DEvent) : List DEvent → Nat
  | [] => 0
  | x :: xs => (if x = ev then 1 else 0) + countEv ev xs

/-- Number of occurrences of an id in an id list. -/
def countId (n : Nat) : List Nat → Nat
  | [] => 0
  | x :: xs => (if x = n then 1 else 0) + countId n xs

theorem countEv_append (ev : DEvent) (l1 l2 : List DEvent) :
    countEv ev (l1 ++ l2) = countEv ev l1 + countEv ev l2 := by
  induction l1 with
  | nil => simp [countEv]
  | cons x xs ih => simp [countEv, ih]; omega

theorem countEv_map_errored (l : List Nat) (id : Nat) (r : ORes) :
    countEv (DEvent.errored id r) (l.map (fun i => DEvent.errored i r))
      = countId id l := by
  induction l with
  | nil => simp [countEv, countId]
  | cons x xs ih => simp [countEv, countId, ih]

theorem countEv_errored_in_closeResolved (l : List Nat) (id : Nat) (r : ORes)
    (cr : CRes) :
    countEv (DEvent.errored id r) (l.map (fun i => DEvent.closeResolved i cr))
      = 0 := by
  induction l with
  | nil => simp [countEv]
  | cons x xs ih => simp [countEv, ih]

theorem countEv_map_closeResolved (l : List Nat) (id : Nat) (cr : CRes) :
    countEv (DEvent.closeResolved id cr)
        (l.map (fun i => DEvent.closeResolved i cr)) = countId id l := by
  induction l with
  | nil => simp [countEv, countId]
  | cons x xs ih => simp [countEv, countId, ih]

theorem countEv_closeResolved_in_errored (l : List Nat) (id : Nat) (cr : CRes)
    (r : ORes) :
    countEv (DEvent.closeResolved id cr) (l.map (fun i => DEvent.errored i r))
      = 0 := by
  induction l with
  | nil => simp [countEv]
  | cons x xs ih => simp [countEv, ih]

theorem countId_eq_zero_of_not_mem {n : Nat} {l : List Nat} (h : n ∉ l) :
    countId n l = 0 := by
  induction l with
  | nil => rfl
  | cons x xs ih =>
    simp [List.mem_cons] at h
    simp [countId, ih h.2, show x ≠ n from fun e => h.1 e.symm]

theorem countId_eq_one {n : Nat} {l : List Nat} (hN : l.Nodup) (hm : n ∈ l) :
    countId n l = 1 := by
  induction l with
  | nil => cases hm
  | cons x xs ih =>
    rw [List.nodup_cons] at hN
    rcases List.mem_cons.1 hm with he | hm2
    · subst he
      simp [countId, countId_eq_zero_of_not_mem hN.1]
    · have hne : x ≠ n := fun e => hN.1 (e ▸ hm2)
      simp [countId, hne, ih hN.2 hm2]

/-- Every facade operation preserves well-formedness. -/
theorem wf_stepD (d : DeferredWormhole) (a : Act) (h : WF d) :
    WF (stepD d a).1 := by
  obtain ⟨nC, nV, nW, nR, nK, hb, dCV, dCW, dCR, dCK, dVW, dVR, dVK, dWR, dWK,
    dRK⟩ := id h
  have bC : ∀ i ∈ d.code_observers, i < d.nextId :=
    fun i hi => hb i (by simp [allObs, hi])
  have bV : ∀ i ∈ d.verifier_observers, i < d.nextId :=
    fun i hi => hb i (by simp [allObs, hi])
  have bW : ∀ i ∈ d.version_observers, i < d.nextId :=
    fun i hi => hb i (by simp [allObs, hi])
  have bR : ∀ i ∈ d.received_observers, i < d.nextId :=
    fun i hi => hb i (by simp [allObs, hi])
  have bK : ∀ i ∈ d.closed_observers, i < d.nextId :=
    fun i hi => hb i (by simp [allObs, hi])
  cases a with
  | whenCode =>
    cases ho : d.observer_result with
    | some r => simpa [stepD, DeferredWormhole.when_code, ho] using h
    | none =>
      cases hc : d.code with
      | some c => simpa [stepD, DeferredWormhole.when_code, ho, hc] using h
      | none =>
        simp only [stepD, DeferredWormhole.when_code, ho, hc]
        refine ⟨nodup_snoc nC (not_mem_of_forall_lt bC), nV, nW, nR, nK, ?_,
          disjL_snoc_left dCV (not_mem_of_forall_lt bV),
          disjL_snoc_left dCW (not_mem_of_forall_lt bW),
          disjL_snoc_left dCR (not_mem_of_forall_lt bR),
          disjL_snoc_left dCK (not_mem_of_forall_lt bK),
          dVW, dVR, dVK, dWR, dWK, dRK⟩
        intro i hi
        have hmem : i ∈ allObs d ∨ i = d.nextId := by
          simp [allObs] at hi ⊢
          tauto
        show i < d.nextId + 1
        rcases hmem with h1 | h1
        · have := hb i h1; omega
        · omega
  | whenVerifier =>
    cases ho : d.observer_result with
    | some r => simpa [stepD, DeferredWormhole.when_verifier, ho] using h
    | none =>
      cases hc : d.verifier with
      | some c => simpa [stepD, DeferredWormhole.when_verifier, ho, hc] using h
      | none =>
        simp only [stepD, DeferredWormhole.when_verifier, ho, hc]
        refine ⟨nC, nodup_snoc nV (not_mem_of_forall_lt bV), nW, nR, nK, ?_,
          disjL_snoc_right dCV bC, dCW, dCR, dCK,
          disjL_snoc_left dVW (not_mem_of_forall_lt bW),
          disjL_snoc_left dVR (not_mem_of_forall_lt bR),
          disjL_snoc_left dVK (not_mem_of_forall_lt bK),
          dWR, dWK, dRK⟩
        intro i hi
        have hmem : i ∈ allObs d ∨ i = d.nextId := by
          simp [allObs] at hi ⊢
          tauto
        show i < d.nextId + 1
        rcases hmem with h1 | h1
        · have := hb i h1; omega
        · omega
  | whenVersion =>
    cases ho : d.observer_result with
    | some r => simpa [stepD, DeferredWormhole.when_version, ho] using h
    | none =>
      cases hc : d.version with
      | some c => simpa [stepD, DeferredWormhole.when_version, ho, hc] using h
      | none =>
        simp only [stepD, DeferredWormhole.when_version, ho, hc]
        refine ⟨nC, nV, nodup_snoc nW (not_mem_of_forall_lt bW), nR, nK, ?_,
          dCV, disjL_snoc_right dCW bC, dCR, dCK,
          disjL_snoc_right dVW bV, dVR, dVK,
          disjL_snoc_left dWR (not_mem_of_forall_lt bR),
          disjL_snoc_left dWK (not_mem_of_forall_lt bK),
          dRK⟩
        intro i hi
        have hmem : i ∈ allObs d ∨ i = d.nextId := by
          simp [allObs] at hi ⊢
          tauto
        show i < d.nextId + 1
        rcases hmem with h1 | h1
        · have := hb i h1; omega
        · omega
  | whenReceived =>
    cases ho : d.observer_result with
    | some r => simpa [stepD, DeferredWormhole.when_received, ho] using h
    | none =>
      cases hc : d.received_data with
      | cons p rest =>
        simp only [stepD, DeferredWormhole.when_received, ho, hc]
        exact h
      | nil =>
        simp only [stepD, DeferredWormhole.when_received, ho, hc]
        refine ⟨nC, nV, nW, nodup_snoc nR (not_mem_of_forall_lt bR), nK, ?_,
          dCV, dCW, disjL_snoc_right dCR bC, dCK,
          dVW, disjL_snoc_right dVR bV, dVK,
          disjL_snoc_right dWR bW, dWK,
          disjL_snoc_left dRK (not_mem_of_forall_lt bK)⟩
        intro i hi
        have hmem : i ∈ allObs d ∨ i = d.nextId := by
          simp [allObs] at hi ⊢
          tauto
        show i < d.nextId + 1
        rcases hmem with h1 | h1
        · have := hb i h1; omega
        · omega
  | closeAct =>
    have hins : WF ({ d with
        closed_observers := d.closed_observers ++ [d.nextId],
        nextId := d.nextId + 1,
        bossCloseCalls := d.bossCloseCalls + 1 }) := by
      refine ⟨nC, nV, nW, nR, nodup_snoc nK (not_mem_of_forall_lt bK), ?_,
        dCV, dCW, dCR, disjL_snoc_right dCK bC,
        dVW, dVR, disjL_snoc_right dVK bV,
        dWR, disjL_snoc_right dWK bW,
        disjL_snoc_right dRK bR⟩
      intro i hi
      have hmem : i ∈ allObs d ∨ i = d.nextId := by
        simp [allObs] at hi ⊢
        tauto
      show i < d.nextId + 1
      rcases hmem with h1 | h1
      · have := hb i h1; omega
      · omega
    cases hc : d.closed_result with
    | some r =>
      by_cases htr : r.truthy = true
      · simpa [stepD, DeferredWormhole.close, hc, htr] using h
      · simpa [stepD, DeferredWormhole.close, hc, htr] using hins
    | none => simpa [stepD, DeferredWormhole.close, hc] using hins
  | gotCode c =>
    simp only [stepD, DeferredWormhole.got_code]
    refine ⟨List.nodup_nil, nV, nW, nR, nK, ?_,
      disjL_nil_left, disjL_nil_left, disjL_nil_left, disjL_nil_left,
      dVW, dVR, dVK, dWR, dWK, dRK⟩
    intro i hi
    apply hb
    simp [allObs] at hi ⊢
    tauto
  | gotKey k =>
    exact h
  | gotVerifier c =>
    simp only [stepD, DeferredWormhole.got_verifier]
    refine ⟨nC, List.nodup_nil, nW, nR, nK, ?_,
      disjL_nil_right, dCW, dCR, dCK,
      disjL_nil_left, disjL_nil_left, disjL_nil_left,
      dWR, dWK, dRK⟩
    intro i hi
    apply hb
    simp [allObs] at hi ⊢
    tauto
  | gotVersion c =>
    simp only [stepD, DeferredWormhole.got_version]
    refine ⟨nC, nV, List.nodup_nil, nR, nK, ?_,
      dCV, disjL_nil_right, dCR, dCK,
      disjL_nil_right, dVR, dVK,
      disjL_nil_left, disjL_nil_left, dRK⟩
    intro i hi
    apply hb
    simp [allObs] at hi ⊢
    tauto
  | recv p =>
    cases hw : d.received_observers with
    | nil =>
      simp only [stepD, DeferredWormhole.received, hw]
      refine ⟨nC, nV, nW, List.nodup_nil, nK, ?_,
        dCV, dCW, disjL_nil_right, dCK,
        dVW, disjL_nil_right, dVK,
        disjL_nil_right, dWK, disjL_nil_left⟩
      intro i hi
      apply hb
      simp [allObs, hw] at hi ⊢
      tauto
    | cons i0 rest =>
      have hsub : ∀ j ∈ rest, j ∈ d.received_observers := by
        intro j hj
        rw [hw]
        exact List.mem_cons_of_mem _ hj
      have nR' : rest.Nodup := by
        rw [hw, List.nodup_cons] at nR
        exact nR.2
      simp only [stepD, DeferredWormhole.received, hw]
      refine ⟨nC, nV, nW, nR', nK, ?_,
        dCV, dCW, disjL_sub_right dCR hsub, dCK,
        dVW, disjL_sub_right dVR hsub, dVK,
        disjL_sub_right dWR hsub, dWK,
        disjL_sub_left dRK hsub⟩
      intro j hj
      apply hb
      simp [allObs, hw] at hj ⊢
      tauto
  | closedAct r =>
    exact h

/-- Well-formedness is preserved by whole call sequences. -/
theorem wf_runDW (d : DeferredWormhole) (t : List Act) (h : WF d) :
    WF (runDW d t).1 := by
  induction t generalizing d with
  | nil => simpa [runDW] using h
  | cons a t ih => simpa [runDW] using ih (stepD d a).1 (wf_stepD d a h)

/-- The fresh facade is well-formed. -/
theorem wf_initial : WF DeferredWormhole.initial := by
  refine ⟨List.nodup_nil, List.nodup_nil, List.nodup_nil, List.nodup_nil,
    List.nodup_nil, ?_, disjL_nil_left, disjL_nil_left, disjL_nil_left,
    disjL_nil_left, disjL_nil_left, disjL_nil_left, disjL_nil_left,
    disjL_nil_left, disjL_nil_left, disjL_nil_left⟩
  intro i hi
  simp [allObs, DeferredWormhole.initial] at hi

/-- In a well-formed state, `closed(result)` errbacks each pending verifier,
version and received observer exactly once with the observer result. -/
theorem closed_errback_count (d : DeferredWormhole) (r : PyRes) (h : WF d) :
    ∀ id, (id ∈ d.verifier_observers ∨ id ∈ d.version_observers
        ∨ id ∈ d.received_observers) →
      countEv (DEvent.errored id (oresOf r)) ((DeferredWormhole.closed d r).2)
        = 1 := by
  obtain ⟨nC, nV, nW, nR, nK, hb, dCV, dCW, dCR, dCK, dVW, dVR, dVK, dWR, dWK,
    dRK⟩ := h
  intro id hid
  simp only [DeferredWormhole.closed]
  rw [countEv_append, countEv_append, countEv_append,
      countEv_map_errored, countEv_map_errored, countEv_map_errored,
      countEv_errored_in_closeResolved]
  rcases hid with h1 | h1 | h1
  · rw [countId_eq_one nV h1,
        countId_eq_zero_of_not_mem (dVW id h1),
        countId_eq_zero_of_not_mem (dVR id h1)]
  · rw [countId_eq_one nW h1,
        countId_eq_zero_of_not_mem (fun hv => dVW id hv h1),
        countId_eq_zero_of_not_mem (dWR id h1)]
  · rw [countId_eq_one nR h1,
        countId_eq_zero_of_not_mem (fun hv => dVR id hv h1),
        countId_eq_zero_of_not_mem (fun hw => dWR id hw h1)]

/-- In a well-formed state, `closed(result)` calls back each pending close
observer exactly once with the close result. -/
theorem closed_closeresolved_count (d : DeferredWormhole) (r : PyRes)
    (h : WF d) :
    ∀ id ∈ d.closed_observers,
      countEv (DEvent.closeResolved id (cresOf r))
        ((DeferredWormhole.closed d r).2) = 1 := by
  obtain ⟨nC, nV, nW, nR, nK, hb, dCV, dCW, dCR, dCK, dVW, dVR, dVK, dWR, dWK,
    dRK⟩ := h
  intro id hid
  simp only [DeferredWormhole.closed]
  rw [countEv_append, countEv_append, countEv_append,
      countEv_closeResolved_in_errored, countEv_closeResolved_in_errored,
      countEv_closeResolved_in_errored, countEv_map_closeResolved,
      countId_eq_one nK hid]

/-- In a well-formed state, `closed(result)` emits no event at all for a
pending code observer: `_code_observers` is absent from the fan-out. -/
theorem closed_code_untouched (d : DeferredWormhole) (r : PyRes) (h : WF d) :
    ∀ id ∈ d.code_observers, ∀ ev ∈ (DeferredWormhole.closed d r).2,
      DEvent.idOf ev ≠ some id := by
  obtain ⟨nC, nV, nW, nR, nK, hb, dCV, dCW, dCR, dCK, dVW, dVR, dVK, dWR, dWK,
    dRK⟩ := h
  intro id hid ev hev
  simp only [DeferredWormhole.closed] at hev
  rcases List.mem_append.1 hev with hev | hev
  · rcases List.mem_append.1 hev with hev | hev
    · rcases List.mem_append.1 hev with hev | hev
      · rcases List.mem_map.1 hev with ⟨j, hj, rfl⟩
        simp [DEvent.idOf]
        intro he
        subst he
        exact dCV j hid hj
      · rcases List.mem_map.1 hev with ⟨j, hj, rfl⟩
        simp [DEvent.idOf]
        intro he
        subst he
        exact dCW j hid hj
    · rcases List.mem_map.1 hev with ⟨j, hj, rfl⟩
      simp [DEvent.idOf]
      intro he
      subst he
      exact dCR j hid hj
  · rcases List.mem_map.1 hev with ⟨j, hj, rfl⟩
    simp [DEvent.idOf]
    intro he
    subst he
    exact dCK j hid hj

/-- Once the sticky observer result is set, every `when_*` call fails at once
with it and leaves the state unchanged. -/
theorem when_sticky (d : DeferredWormhole) (r : ORes)
    (h : d.observer_result = some r) (a : Act) (ha : isWhen a = true) :
    stepD d a = (d, [DEvent.immediateFail r]) := by
  cases a <;> simp [isWhen] at ha
  · simp [stepD, DeferredWormhole.when_code, h]
  · simp [stepD, DeferredWormhole.when_verifier, h]
  · simp [stepD, DeferredWormhole.when_version, h]
  · simp [stepD, DeferredWormhole.when_received, h]

/-- Every sequence of `when_*` calls after the sticky observer result is set
fails call-by-call with the sticky error. -/
theorem sticky_run (d : DeferredWormhole) (r : ORes)
    (h : d.observer_result = some r) (u : List Act) :
    (∀ a ∈ u, isWhen a = true) →
    runDW d u = (d, u.map (fun _ => DEvent.immediateFail r)) := by
  induction u with
  | nil => intro _; simp [runDW]
  | cons a u ih =>
    intro hu
    have hs := when_sticky d r h a (hu a (by simp))
    simp only [runDW, hs]
    rw [ih (fun b hb => hu b (by simp [hb]))]
    simp

/-- C1 (amended).  When `closed(result)` fires with an exception-class result
on any reachable facade state: every pending `when_verifier`, `when_version`
and `when_received` future fails exactly once with the `Failure` wrapping
that error; pending `when_code` futures receive no event at all and their
observer list is left untouched (they are silently dropped); and every
subsequent call to any of the four `when_*` operations fails immediately
with the same sticky error. -/
theorem c1_closed_error_fanout_amended (t : List Act) (e : String) :
    (∀ id, (id ∈ (runDW DeferredWormhole.initial t).1.verifier_observers
        ∨ id ∈ (runDW DeferredWormhole.initial t).1.version_observers
        ∨ id ∈ (runDW DeferredWormhole.initial t).1.received_observers) →
      countEv (DEvent.errored id (ORes.failure e))
        ((DeferredWormhole.closed (runDW DeferredWormhole.initial t).1
            (PyRes.exc e)).2) = 1)
    ∧ (∀ id ∈ (runDW DeferredWormhole.initial t).1.code_observers,
        ∀ ev ∈ (DeferredWormhole.closed (runDW DeferredWormhole.initial t).1
            (PyRes.exc e)).2, DEvent.idOf ev ≠ some id)
    ∧ (DeferredWormhole.closed (runDW DeferredWormhole.initial t).1
          (PyRes.exc e)).1.code_observers
        = (runDW DeferredWormhole.initial t).1.code_observers
    ∧ (∀ u, (∀ a ∈ u, isWhen a = true) →
        (runDW (DeferredWormhole.closed (runDW DeferredWormhole.initial t).1
            (PyRes.exc e)).1 u).2
          = u.map (fun _ => DEvent.immediateFail (ORes.failure e))) := by
  have hWF := wf_runDW DeferredWormhole.initial t wf_initial
  refine ⟨closed_errback_count _ (PyRes.exc e) hWF,
          closed_code_untouched _ (PyRes.exc e) hWF,
          rfl, ?_⟩
  intro u hu
  rw [sticky_run _ (ORes.failure e) rfl u hu]

/-- Witness for the amended C1 at a concrete state: a pending `when_verifier`
future (deferred 0) is errbacked exactly once with the failure, and a
subsequent `when_code` call fails with the sticky error. -/
theorem c1_fanout_witness :
    countEv (DEvent.errored 0 (ORes.failure "boom"))
      ((DeferredWormhole.closed
          (runDW DeferredWormhole.initial [Act.whenVerifier]).1
          (PyRes.exc "boom")).2) = 1
    ∧ (runDW (DeferredWormhole.closed
          (runDW DeferredWormhole.initial [Act.whenVerifier]).1
          (PyRes.exc "boom")).1 [Act.whenCode]).2
        = [DEvent.immediateFail (ORes.failure "boom")] :=
  ⟨(c1_closed_error_fanout_amended [Act.whenVerifier] "boom").1 0 (by decide),
   (c1_closed_error_fanout_amended [Act.whenVerifier] "boom").2.2.2
      [Act.whenCode] (by decide)⟩

/-- Before the terminal result is set, every operation other than `closed`
leaves `_closed_result` unset, and invokes `self._boss.close()` exactly when
it is a `close()` call. -/
theorem stepD_preclose (d : DeferredWormhole) (a : Act)
    (ha : isClosedAct a = false) (h : d.closed_result = none) :
    (stepD d a).1.closed_result = none
    ∧ (stepD d a).1.bossCloseCalls
        = d.bossCloseCalls + (if a = Act.closeAct then 1 else 0) := by
  cases a with
  | whenCode =>
    cases ho : d.observer_result <;> cases hc : d.code <;>
      simp [stepD, DeferredWormhole.when_code, ho, hc, h]
  | whenVerifier =>
    cases ho : d.observer_result <;> cases hc : d.verifier <;>
      simp [stepD, DeferredWormhole.when_verifier, ho, hc, h]
  | whenVersion =>
    cases ho : d.observer_result <;> cases hc : d.version <;>
      simp [stepD, DeferredWormhole.when_version, ho, hc, h]
  | whenReceived =>
    cases ho : d.observer_result <;> cases hc : d.received_data <;>
      simp [stepD, DeferredWormhole.when_received, ho, hc, h]
  | closeAct => simp [stepD, DeferredWormhole.close, h]
  | gotCode c => simp [stepD, DeferredWormhole.got_code, h]
  | gotKey k => simp [stepD, DeferredWormhole.got_key, h]
  | gotVerifier c => simp [stepD, DeferredWormhole.got_verifier, h]
  | gotVersion c => simp [stepD, DeferredWormhole.got_version, h]
  | recv p =>
    cases hw : d.received_observers <;>
      simp [stepD, DeferredWormhole.received, hw, h]
  | closedAct r => simp [isClosedAct] at ha

/-- Over any call sequence without a `closed` event, the controller's close
logic runs exactly once per `close()` call made. -/
theorem boss_close_count (t : List Act) :
    ∀ d : DeferredWormhole, d.closed_result = none →
      (∀ a ∈ t, isClosedAct a = false) →
      (runDW d t).1.closed_result = none
      ∧ (runDW d t).1.bossCloseCalls = d.bossCloseCalls + numCloseCalls t := by
  induction t with
  | nil => intro d h _; simp [runDW, numCloseCalls, h]
  | cons a t ih =>
    intro d h ht
    have hs := stepD_preclose d a (ht a (by simp)) h
    have hrec := ih (stepD d a).1 hs.1 (fun b hb => ht b (by simp [hb]))
    constructor
    · simpa [runDW] using hrec.1
    · have h2 : (runDW d (a :: t)).1 = (runDW (stepD d a).1 t).1 := by
        simp [runDW]
      rw [h2, hrec.2, hs.2]
      simp only [numCloseCalls]
      generalize (if a = Act.closeAct then 1 else 0) = x
      omega

/-- C3 (amended).  `close()` semantics of the promise-style facade: (i) on any
session with no terminal result yet, the controller's close logic runs once
per `close()` call - so a second `close()` while the first is still in
flight re-triggers it, rather than "at most once"; (ii) a `close()` call made
after a truthy terminal result is set returns that same cached terminal value
immediately, without touching the state or the controller; (iii) when
`closed(result)` fires, every pending `close()` future is resolved with the
same terminal value. -/
theorem c3_close_semantics_amended :
    (∀ t : List Act, (∀ a ∈ t, isClosedAct a = false) →
        (runDW DeferredWormhole.initial t).1.bossCloseCalls = numCloseCalls t)
    ∧ (∀ d : DeferredWormhole, ∀ r : CRes, d.closed_result = some r →
        CRes.truthy r = true →
        DeferredWormhole.close d = (d, [DEvent.closeImmediate r]))
    ∧ (∀ d : DeferredWormhole, ∀ r : PyRes, ∀ id ∈ d.closed_observers,
        DEvent.closeResolved id (cresOf r) ∈ (DeferredWormhole.closed d r).2) := by
  refine ⟨?_, ?_, ?_⟩
  · intro t ht
    have h := (boss_close_count t DeferredWormhole.initial rfl ht).2
    simpa [DeferredWormhole.initial] using h
  · intro d r h htr
    simp [DeferredWormhole.close, h, htr]
  · intro d r id hid
    simp only [DeferredWormhole.closed]
    exact List.mem_append_right _ (List.mem_map_of_mem _ hid)

/-- Witness for the amended C3: two in-flight `close()` calls trigger the
controller's close logic twice, and a `close()` after `closed("happy")`
returns the cached plain result. -/
theorem c3_close_witness :
    (runDW DeferredWormhole.initial [Act.closeAct, Act.closeAct]).1.bossCloseCalls
        = numCloseCalls [Act.closeAct, Act.closeAct]
    ∧ DeferredWormhole.close
        { DeferredWormhole.initial with closed_result := some (CRes.plain "happy") }
      = ({ DeferredWormhole.initial with closed_result := some (CRes.plain "happy") },
         [DEvent.closeImmediate (CRes.plain "happy")]) :=
  ⟨c3_close_semantics_amended.1 [Act.closeAct, Act.closeAct] (by decide),
   c3_close_semantics_amended.2.1 _ (CRes.plain "happy") rfl (by decide)⟩

/-- C4 (amended).  When `closed(result)` fires with a non-exception result on
any reachable facade state: every pending `when_verifier`, `when_version` and
`when_received` future fails exactly once with `WormholeClosed(result)`;
every pending `close()` future resolves exactly once with the plain result;
a later `close()` call returns the plain result immediately when the result
is truthy - but for a falsy plain result (e.g. `""`) a later `close()`
instead registers a fresh pending deferred and re-invokes the controller's
close logic, so it never resolves with the plain result. -/
theorem c4_graceful_close_amended (t : List Act) (v : String) :
    (∀ id, (id ∈ (runDW DeferredWormhole.initial t).1.verifier_observers
        ∨ id ∈ (runDW DeferredWormhole.initial t).1.version_observers
        ∨ id ∈ (runDW DeferredWormhole.initial t).1.received_observers) →
      countEv (DEvent.errored id (ORes.wormholeClosed v))
        ((DeferredWormhole.closed (runDW DeferredWormhole.initial t).1
            (PyRes.val v)).2) = 1)
    ∧ (∀ id ∈ (runDW DeferredWormhole.initial t).1.closed_observers,
      countEv (DEvent.closeResolved id (CRes.plain v))
        ((DeferredWormhole.closed (runDW DeferredWormhole.initial t).1
            (PyRes.val v)).2) = 1)
    ∧ (v ≠ "" →
        DeferredWormhole.close
          (DeferredWormhole.closed (runDW DeferredWormhole.initial t).1
            (PyRes.val v)).1
        = ((DeferredWormhole.closed (runDW DeferredWormhole.initial t).1
              (PyRes.val v)).1,
           [DEvent.closeImmediate (CRes.plain v)]))
    ∧ (v = "" →
        (DeferredWormhole.close
          (DeferredWormhole.closed (runDW DeferredWormhole.initial t).1
            (PyRes.val v)).1).2
          = [DEvent.closePending
              (DeferredWormhole.closed (runDW DeferredWormhole.initial t).1
                (PyRes.val v)).1.nextId]
        ∧ (DeferredWormhole.close
            (DeferredWormhole.closed (runDW DeferredWormhole.initial t).1
              (PyRes.val v)).1).1.bossCloseCalls
          = (DeferredWormhole.closed (runDW DeferredWormhole.initial t).1
              (PyRes.val v)).1.bossCloseCalls + 1) := by
  have hWF := wf_runDW DeferredWormhole.initial t wf_initial
  refine ⟨closed_errback_count _ (PyRes.val v) hWF,
          closed_closeresolved_count _ (PyRes.val v) hWF, ?_, ?_⟩
  · intro hv
    have hcr : (DeferredWormhole.closed (runDW DeferredWormhole.initial t).1
        (PyRes.val v)).1.closed_result = some (CRes.plain v) := rfl
    simp [DeferredWormhole.close, hcr, CRes.truthy, hv]
  · intro hv
    subst hv
    have hcr : (DeferredWormhole.closed (runDW DeferredWormhole.initial t).1
        (PyRes.val "")).1.closed_result = some (CRes.plain "") := rfl
    constructor <;> simp [DeferredWormhole.close, hcr, CRes.truthy]

/-- Witness for the amended C4: with one pending `close()` (deferred 0) and
one pending `when_verifier()` (deferred 1), `closed("bye")` errbacks the
verifier future once with `WormholeClosed("bye")` and resolves the close
future once with the plain `"bye"`; a later `close()` returns `"bye"`. -/
theorem c4_graceful_witness :
    countEv (DEvent.errored 1 (ORes.wormholeClosed "bye"))
      ((DeferredWormhole.closed
          (runDW DeferredWormhole.initial [Act.closeAct, Act.whenVerifier]).1
          (PyRes.val "bye")).2) = 1
    ∧ countEv (DEvent.closeResolved 0 (CRes.plain "bye"))
      ((DeferredWormhole.closed
          (runDW DeferredWormhole.initial [Act.closeAct, Act.whenVerifier]).1
          (PyRes.val "bye")).2) = 1
    ∧ (DeferredWormhole.close
        (DeferredWormhole.closed
          (runDW DeferredWormhole.initial [Act.closeAct, Act.whenVerifier]).1
          (PyRes.val "bye")).1).2
        = [DEvent.closeImmediate (CRes.plain "bye")] :=
  ⟨(c4_graceful_close_amended [Act.closeAct, Act.whenVerifier] "bye").1 1
      (by decide),
   (c4_graceful_close_amended [Act.closeAct, Act.whenVerifier] "bye").2.1 0
      (by decide),
   by rw [(c4_graceful_close_amended [Act.closeAct, Act.whenVerifier] "bye").2.2.1
        (by decide)]⟩

/-- The method `handle_welcome` emits the version warning exactly when `warnCondition`
holds. -/
theorem hasWarn_handle (s : WHState) (w : WelcomeMsg) :
    hasWarn (handle_welcome s w).2 = warnCondition s w := by
  simp only [handle_welcome, hasWarn]
  cases hmo : w.motd <;> cases her : w.error <;>
    cases hc : warnCondition s w <;> cases hsig : s.signal_error <;>
      simp [isWarnEv, hc]

/-- Warning count of a single `handle_welcome` call. -/
theorem countWarn_handle (s : WHState) (w : WelcomeMsg) :
    countWarn (handle_welcome s w).2 = if warnCondition s w then 1 else 0 := by
  simp only [handle_welcome, countWarn]
  cases hmo : w.motd <;> cases her : w.error <;>
    cases hc : warnCondition s w <;> cases hsig : s.signal_error <;>
      simp [isWarnEv, hc, List.countP_append, List.countP_cons]

/-- The displayed latch after one call: old latch, or the warning was just
emitted. -/
theorem displayed_handle (s : WHState) (w : WelcomeMsg) :
    (handle_welcome s w).1.version_warning_displayed
      = (s.version_warning_displayed || warnCondition s w) := by
  cases hc : warnCondition s w <;> simp [handle_welcome, hc]

/-- The warning fires only when the latch is clear. -/
theorem warnCondition_displayed (s : WHState) (w : WelcomeMsg)
    (h : warnCondition s w = true) : s.version_warning_displayed = false := by
  cases hcv : w.current_cli_version with
  | none => rw [warnCondition, hcv] at h; cases h
  | some scv =>
    rw [warnCondition, hcv] at h
    simp at h
    exact h.1.2

/-- A set latch suppresses the warning. -/
theorem warnCondition_of_displayed (s : WHState) (w : WelcomeMsg)
    (hd : s.version_warning_displayed = true) : warnCondition s w = false := by
  cases hcv : w.current_cli_version <;> simp [warnCondition, hcv, hd]

/-- Over any welcome sequence, at most one warning if the latch is clear, and
none if it is already set. -/
theorem countWarn_run_le (ws : List WelcomeMsg) :
    ∀ s : WHState, countWarn (runWH s ws).2
      ≤ if s.version_warning_displayed then 0 else 1 := by
  induction ws with
  | nil => intro s; simp [runWH, countWarn]
  | cons w ws ih =>
    intro s
    have hsplit : countWarn (runWH s (w :: ws)).2
        = countWarn (handle_welcome s w).2
          + countWarn (runWH (handle_welcome s w).1 ws).2 := by
      simp [runWH, countWarn, List.countP_append]
    have hrec := ih (handle_welcome s w).1
    rw [displayed_handle] at hrec
    rw [hsplit, countWarn_handle]
    cases hd : s.version_warning_displayed with
    | true =>
      rw [warnCondition_of_displayed s w hd]
      rw [hd] at hrec
      simp at hrec ⊢
      omega
    | false =>
      cases hc : warnCondition s w with
      | true =>
        rw [hc, hd] at hrec
        simp at hrec ⊢
        omega
      | false =>
        rw [hc, hd] at hrec
        simp at hrec ⊢
        omega

/-- Over any welcome sequence, the latch ends set exactly when some warning
was emitted during the run. -/
theorem displayed_run (ws : List WelcomeMsg) :
    ∀ s : WHState, (runWH s ws).1.version_warning_displayed
      = (s.version_warning_displayed || (countWarn (runWH s ws).2 != 0)) := by
  induction ws with
  | nil => intro s; simp [runWH, countWarn]
  | cons w ws ih =>
    intro s
    have hsplit : countWarn (runWH s (w :: ws)).2
        = countWarn (handle_welcome s w).2
          + countWarn (runWH (handle_welcome s w).1 ws).2 := by
      simp [runWH, countWarn, List.countP_append]
    have h1 : (runWH s (w :: ws)).1 = (runWH (handle_welcome s w).1 ws).1 := by
      simp [runWH]
    rw [h1, ih (handle_welcome s w).1, displayed_handle, hsplit,
        countWarn_handle]
    cases hc : warnCondition s w <;>
      cases hr : countWarn (runWH (handle_welcome s w).1 ws).2 <;>
        simp [Bool.or_assoc]

/-- The source's warning guard, written as one boolean expression over the
welcome message and the evaluator state. -/
theorem warnCondition_eq (s : WHState) (w : WelcomeMsg) :
    warnCondition s w
      = (w.current_cli_version.isSome
          && !(s.current_version.contains '-')
          && !s.version_warning_displayed
          && (w.current_cli_version != some s.current_version)) := by
  cases hcv : w.current_cli_version with
  | none => simp [warnCondition, hcv]
  | some scv =>
    simp only [warnCondition, hcv, Option.isSome_some, Bool.true_and, bne,
      Option.some_beq_some]

/-- C8.  The Welcome Evaluator emits the version-compatibility warning on a
welcome message exactly when the message carries `current_cli_version`, the
evaluator's own version contains no "-", the latch is clear, and the
advertised version differs from the local one; the latch is set exactly by
emitting the warning; over any welcome sequence delivered to one fresh
evaluator instance, the warning is emitted at most once; and the latch ends
set exactly when a warning was emitted, so it is never re-armed. -/
theorem c8_version_warning_once :
    (∀ (s : WHState) (w : WelcomeMsg),
      hasWarn (handle_welcome s w).2
        = (w.current_cli_version.isSome
            && !(s.current_version.contains '-')
            && !s.version_warning_displayed
            && (w.current_cli_version != some s.current_version)))
    ∧ (∀ (s : WHState) (w : WelcomeMsg),
      (handle_welcome s w).1.version_warning_displayed
        = (s.version_warning_displayed || hasWarn (handle_welcome s w).2))
    ∧ (∀ (url ver : String) (sig : SigErr) (ws : List WelcomeMsg),
      countWarn (runWH (mkWelcomeHandler url ver sig) ws).2 ≤ 1)
    ∧ (∀ (url ver : String) (sig : SigErr) (ws : List WelcomeMsg),
      (runWH (mkWelcomeHandler url ver sig) ws).1.version_warning_displayed
        = (countWarn (runWH (mkWelcomeHandler url ver sig) ws).2 != 0)) := by
  refine ⟨?_, ?_, ?_, ?_⟩
  · intro s w
    rw [hasWarn_handle, warnCondition_eq]
  · intro s w
    rw [displayed_handle, hasWarn_handle]
  · intro url ver sig ws
    have h := countWarn_run_le ws (mkWelcomeHandler url ver sig)
    simpa [mkWelcomeHandler] using h
  · intro url ver sig ws
    have h := displayed_run ws (mkWelcomeHandler url ver sig)
    simpa [mkWelcomeHandler] using h

/-- C10.  In both facade variants `derive_key` gates on the truthiness of the
stored key, not on whether `got_key` fired: after `got_key(b"")` (the empty
byte string) it raises `NoKeyError` even though a key event was delivered,
and in general (for a text purpose) it raises `NoKeyError` exactly when the
stored key is falsy. -/
theorem c10_falsy_key_no_key_error :
    (∀ (d : DeferredWormhole) (s : String) (len : Nat),
      DeferredWormhole.derive_key ((DeferredWormhole.got_key d []).1)
          (PyObj.str s) len
        = Except.error DKErr.noKeyError)
    ∧ (∀ (dd : DelegatedWormhole) (s : String) (len : Nat),
      DelegatedWormhole.derive_key (DelegatedWormhole.got_key dd [])
          (PyObj.str s) len
        = Except.error DKErr.noKeyError)
    ∧ (∀ (k : Option (List Nat)) (s : String) (len : Nat),
      (derive_key_m k (PyObj.str s) len = Except.error DKErr.noKeyError
        ↔ keyTruthy k = false)) := by
  refine ⟨fun d s len => rfl, fun dd s len => rfl, ?_⟩
  intro k s len
  cases k with
  | none => simp [derive_key_m, keyTruthy]
  | some kk =>
    cases hk : kk.isEmpty <;> simp [derive_key_m, keyTruthy, hk]

/-- Witness for C10 at the fresh deferred facade. -/
theorem c10_falsy_key_witness :
    DeferredWormhole.derive_key
        ((DeferredWormhole.got_key DeferredWormhole.initial []).1)
        (PyObj.str "purpose") 32
      = Except.error DKErr.noKeyError :=
  c10_falsy_key_no_key_error.1 DeferredWormhole.initial "purpose" 32
